import Mathlib

/-!
Verification of the StochasticDiffusion core (diffusion.js, particle.js).

The JavaScript classes are shallowly embedded here: JS numbers are real
numbers, `Math.random()` draws are externalized as explicit real-valued
arguments (the uniform variates a call would consume), and the mutable
`Particle` / `ParticleSystem` objects become functional state passing on
a `Particle` structure and a `List Particle`.
-/

open Classical

/-- Distribution and time parameters fixed in the `DiffusionModel`
constructor (diffusion.js lines 7-23). -/
structure DiffusionModel where
  noiseMean : ℝ
  noiseStd : ℝ
  cleanMode1 : ℝ
  cleanMode2 : ℝ
  cleanStd : ℝ
  modeWeight : ℝ
  tMin : ℝ
  tMax : ℝ

/-- The parameter values assigned by the constructor in diffusion.js. -/
def defaultModel : DiffusionModel :=
  { noiseMean := 0.0
    noiseStd := 0.7
    cleanMode1 := -1.0
    cleanMode2 := 1.0
    cleanStd := 0.3
    modeWeight := 0.5
    tMin := 0.0
    tMax := 1.0 }

/-- `Math.sign`: -1 on negatives, +1 on positives, 0 at 0. -/
noncomputable def jsign (x : ℝ) : ℝ :=
  if x < 0 then -1 else if 0 < x then 1 else 0

/-- `DiffusionModel.gaussian(x, mean, std)`: the Gaussian pdf formula. -/
noncomputable def DiffusionModel.gaussian (_m : DiffusionModel) (x mean std : ℝ) : ℝ :=
  let variance := std * std
  let coefficient := 1.0 / Real.sqrt (2 * Real.pi * variance)
  let exponent := -0.5 * ((x - mean) / std) ^ 2
  coefficient * Real.exp exponent

/-- `DiffusionModel.getCleanDistribution(x)`: bimodal Gaussian mixture. -/
noncomputable def DiffusionModel.getCleanDistribution (m : DiffusionModel) (x : ℝ) : ℝ :=
  let g1 := m.gaussian x m.cleanMode1 m.cleanStd
  let g2 := m.gaussian x m.cleanMode2 m.cleanStd
  m.modeWeight * g1 + (1 - m.modeWeight) * g2

/-- `DiffusionModel.getNoisyDistribution(x, t)`: linear interpolation in
probability space between the noise density and the clean density. -/
noncomputable def DiffusionModel.getNoisyDistribution (m : DiffusionModel) (x t : ℝ) : ℝ :=
  let noiseDist := m.gaussian x m.noiseMean m.noiseStd
  let cleanDist := m.getCleanDistribution x
  (1 - t) * noiseDist + t * cleanDist

/-- `DiffusionModel.computeVectorField(x, t)` (diffusion.js lines 65-103). -/
noncomputable def DiffusionModel.computeVectorField (m : DiffusionModel) (x t : ℝ) : ℝ :=
  let distToMode1 := |x - m.cleanMode1|
  let distToMode2 := |x - m.cleanMode2|
  let weight1 := Real.exp (-distToMode1 * 2) * (1 + 0.3 * Real.sin (t * Real.pi))
  let weight2 := Real.exp (-distToMode2 * 2) * (1 + 0.3 * Real.cos (t * Real.pi))
  let totalWeight := weight1 + weight2
  let targetX := (weight1 * m.cleanMode1 + weight2 * m.cleanMode2) / totalWeight
  let direction := targetX - x
  let timeScale := 1.0 - t * 0.2
  let curvature := Real.sin (t * Real.pi * 2) * 0.3 * (1 - t)
  let centerComponent := -x * 0.4 * Real.exp (-t * 1.5) * (1 - t)
  direction * timeScale * 1.0 + curvature * jsign x * (1 - t) + centerComponent

/-- `DiffusionModel.flowMatchingStep(x, t, dt)`: deterministic Euler step. -/
noncomputable def DiffusionModel.flowMatchingStep (m : DiffusionModel) (x t dt : ℝ) : ℝ :=
  let velocity := m.computeVectorField x t
  x + velocity * dt

/-- `DiffusionModel.sampleGaussian(mean, std)`: Box-Muller transform.
`u1`, `u2` are the two `Math.random()` draws the call consumes. -/
noncomputable def DiffusionModel.sampleGaussian (_m : DiffusionModel) (mean std u1 u2 : ℝ) : ℝ :=
  let z0 := Real.sqrt (-2 * Real.log u1) * Real.cos (2 * Real.pi * u2)
  mean + std * z0

/-- `DiffusionModel.ddpmStep(x, t, dt, stochasticity)`: deterministic step
plus scaled Gaussian noise. -/
noncomputable def DiffusionModel.ddpmStep
    (m : DiffusionModel) (x t dt stochasticity u1 u2 : ℝ) : ℝ :=
  let deterministic := m.flowMatchingStep x t dt
  let noiseScale := Real.sqrt dt * (1 - t) * stochasticity
  let noise := m.sampleGaussian 0 noiseScale u1 u2
  deterministic + noise

/-- `DiffusionModel.evolveParticle(x, t, dt, stochasticity)`: dispatches on
`stochasticity === 0`. -/
noncomputable def DiffusionModel.evolveParticle
    (m : DiffusionModel) (x t dt stochasticity u1 u2 : ℝ) : ℝ :=
  if stochasticity = 0 then
    m.flowMatchingStep x t dt
  else
    m.ddpmStep x t dt stochasticity u1 u2

/-- C2: for all real x and t, `noisyDensity(x, t)` is the linear
interpolation `(1−t)·noise(x) + t·clean(x)` between the noise density and
the clean mixture density; at t = 0 it is exactly the noise density at x
and at t = 1 exactly the clean density at x. -/
theorem getNoisyDistribution_interpolates (m : DiffusionModel) :
    (∀ x t : ℝ, m.getNoisyDistribution x t =
      (1 - t) * m.gaussian x m.noiseMean m.noiseStd + t * m.getCleanDistribution x) ∧
    (∀ x : ℝ, m.getNoisyDistribution x 0 = m.gaussian x m.noiseMean m.noiseStd) ∧
    (∀ x : ℝ, m.getNoisyDistribution x 1 = m.getCleanDistribution x) := by
  refine ⟨fun x t => rfl, fun x => ?_, fun x => ?_⟩ <;>
    simp [DiffusionModel.getNoisyDistribution]

/-- C4: `ddpmStep(x, t, dt, s)` is the deterministic flow-matching step
plus one Gaussian perturbation drawn with mean 0 and standard deviation
`sqrt(dt)·(1−t)·s`; the perturbation is exactly zero at s = 0 and at
t = 1. -/
theorem ddpmStep_decomposition (m : DiffusionModel) :
    (∀ x t dt s u1 u2 : ℝ, m.ddpmStep x t dt s u1 u2 =
      m.flowMatchingStep x t dt +
        m.sampleGaussian 0 (Real.sqrt dt * (1 - t) * s) u1 u2) ∧
    (∀ x t dt u1 u2 : ℝ, m.ddpmStep x t dt 0 u1 u2 = m.flowMatchingStep x t dt) ∧
    (∀ x dt s u1 u2 : ℝ, m.ddpmStep x 1 dt s u1 u2 = m.flowMatchingStep x 1 dt) := by
  refine ⟨fun x t dt s u1 u2 => rfl, fun x t dt u1 u2 => ?_, fun x dt s u1 u2 => ?_⟩ <;>
    simp [DiffusionModel.ddpmStep, DiffusionModel.sampleGaussian]

/-- C5: `evolveParticle` dispatches to the deterministic step exactly when
stochasticity = 0 and to the stochastic step otherwise; with
stochasticity = 0 its output does not depend on the random draws. -/
theorem evolveParticle_dispatch (m : DiffusionModel) (x t dt s u1 u2 v1 v2 : ℝ) :
    (m.evolveParticle x t dt 0 u1 u2 = m.flowMatchingStep x t dt) ∧
    (s ≠ 0 → m.evolveParticle x t dt s u1 u2 = m.ddpmStep x t dt s u1 u2) ∧
    (m.evolveParticle x t dt 0 u1 u2 = m.evolveParticle x t dt 0 v1 v2) := by
  refine ⟨?_, fun hs => ?_, ?_⟩
  · simp [DiffusionModel.evolveParticle]
  · simp [DiffusionModel.evolveParticle, hs]
  · simp [DiffusionModel.evolveParticle]

/-- Witness for C5 at s = 1, x = t = 0, dt = 0.02. -/
theorem evolveParticle_dispatch_witness :
    (1 : ℝ) ≠ 0 ∧
      defaultModel.evolveParticle 0 0 0.02 1 0.3 0.7 =
        defaultModel.ddpmStep 0 0 0.02 1 0.3 0.7 :=
  ⟨one_ne_zero, (evolveParticle_dispatch defaultModel 0 0 0.02 1 0.3 0.7 0 0).2.1 one_ne_zero⟩

/-- A particle (particle.js lines 7-13). The display color string is an
opaque tag chosen at construction. -/
structure Particle where
  x : ℝ
  t : ℝ
  trajectory : List (ℝ × ℝ)
  active : Bool
  color : String

/-- `new Particle(x, t)`: single-point trajectory, active. -/
def Particle.init (x t : ℝ) (color : String) : Particle :=
  { x := x, t := t, trajectory := [(x, t)], active := true, color := color }

/-- `Particle.isComplete()`: `this.t >= 1.0`. -/
def Particle.isComplete (p : Particle) : Prop := 1 ≤ p.t

/-- `Particle.update(diffusionModel, dt, stochasticity)` (particle.js lines
28-45). `u1`, `u2` are the uniform draws a stochastic step would consume. -/
noncomputable def Particle.update
    (p : Particle) (m : DiffusionModel) (dt stochasticity u1 u2 : ℝ) : Particle :=
  if p.active = false ∨ 1 ≤ p.t then
    { p with active := false }
  else
    let newX := m.evolveParticle p.x p.t dt stochasticity u1 u2
    let newT := min (p.t + dt) 1
    let pushed := p.trajectory ++ [(newX, newT)]
    { p with x := newX, t := newT,
             trajectory := if 100 < pushed.length then pushed.tail else pushed }

/-- Unfolding equation for `Particle.update`. -/
theorem Particle.update_def (p : Particle) (m : DiffusionModel) (dt s u1 u2 : ℝ) :
    p.update m dt s u1 u2 =
      if p.active = false ∨ 1 ≤ p.t then { p with active := false }
      else
        { p with
          x := m.evolveParticle p.x p.t dt s u1 u2
          t := min (p.t + dt) 1
          trajectory :=
            if 100 <
                (p.trajectory ++ [(m.evolveParticle p.x p.t dt s u1 u2, min (p.t + dt) 1)]).length
            then (p.trajectory ++ [(m.evolveParticle p.x p.t dt s u1 u2, min (p.t + dt) 1)]).tail
            else p.trajectory ++ [(m.evolveParticle p.x p.t dt s u1 u2, min (p.t + dt) 1)] } :=
  rfl

/-- A particle whose time has reached 1.0 is marked inactive by the call
that observes this, not by the call that set the time. -/
theorem Particle.update_active_of_complete
    (p : Particle) (m : DiffusionModel) (dt s u1 u2 : ℝ) (h : 1 ≤ p.t) :
    (p.update m dt s u1 u2).active = false := by
  rw [Particle.update_def, if_pos (Or.inr h)]

/-- C1 counterexample: a particle at t = 0.98 advanced with dt = 0.02
reaches t' = 1.0 but is still marked active after that same call. -/
theorem update_reaching_one_stays_active :
    (((Particle.init 0 0.98 "c").update defaultModel 0.02 0.5 0.1 0.2).t = 1) ∧
    (((Particle.init 0 0.98 "c").update defaultModel 0.02 0.5 0.1 0.2).active = true) := by
  rw [Particle.update_def, if_neg (by norm_num [Particle.init])]
  norm_num [Particle.init]

/-- C1 amended: for an active particle with t < 1.0, one advance call sets
x' = evolve(x, t, dt, s), t' = min(t+dt, 1.0), appends (x', t') to the
trajectory (evicting the oldest point when it overflows), and leaves the
particle active; the particle is marked inactive by the next advance call
once t has reached 1.0. -/
theorem update_advances_active_particle
    (m : DiffusionModel) (p : Particle) (dt s u1 u2 v1 v2 : ℝ)
    (hact : p.active = true) (ht : p.t < 1) :
    (p.update m dt s u1 u2).x = m.evolveParticle p.x p.t dt s u1 u2 ∧
    (p.update m dt s u1 u2).t = min (p.t + dt) 1 ∧
    (p.update m dt s u1 u2).trajectory =
      (if 100 <
          (p.trajectory ++ [(m.evolveParticle p.x p.t dt s u1 u2, min (p.t + dt) 1)]).length
       then (p.trajectory ++ [(m.evolveParticle p.x p.t dt s u1 u2, min (p.t + dt) 1)]).tail
       else p.trajectory ++ [(m.evolveParticle p.x p.t dt s u1 u2, min (p.t + dt) 1)]) ∧
    (p.update m dt s u1 u2).active = true ∧
    (1 ≤ (p.update m dt s u1 u2).t →
      ((p.update m dt s u1 u2).update m dt s v1 v2).active = false) := by
  have hcond : ¬(p.active = false ∨ 1 ≤ p.t) := by
    rw [hact]
    simp only [Bool.true_eq_false, false_or, not_le]
    exact ht
  rw [Particle.update_def, if_neg hcond]
  refine ⟨rfl, rfl, rfl, hact, fun h1 => ?_⟩
  exact Particle.update_active_of_complete _ m dt s v1 v2 h1

/-- Witness for C1's amended theorem at a concrete particle. -/
theorem update_advances_active_particle_witness :
    ((Particle.init 0 0.98 "w").active = true ∧ (Particle.init 0 0.98 "w").t < 1) ∧
      (((Particle.init 0 0.98 "w").update defaultModel 0.02 0.5 0.1 0.2).active = true) :=
  ⟨⟨rfl, by norm_num [Particle.init]⟩,
    (update_advances_active_particle defaultModel (Particle.init 0 0.98 "w")
      0.02 0.5 0.1 0.2 0 0 rfl (by norm_num [Particle.init])).2.2.2.1⟩

/-- C8 counterexample: a particle that is still active with t = 1.0 is not
left unchanged by an advance call: its active flag is flipped to false. -/
theorem update_not_noop_on_active_complete :
    ((Particle.init 0.5 1 "c").active = true) ∧
    (((Particle.init 0.5 1 "c").update defaultModel 0.02 0.5 0.1 0.2).active = false) ∧
    ((Particle.init 0.5 1 "c").update defaultModel 0.02 0.5 0.1 0.2 ≠
      Particle.init 0.5 1 "c") := by
  refine ⟨rfl, ?_, ?_⟩
  · exact Particle.update_active_of_complete _ defaultModel 0.02 0.5 0.1 0.2
      (by norm_num [Particle.init])
  · intro h
    have := congrArg Particle.active h
    rw [Particle.update_active_of_complete _ defaultModel 0.02 0.5 0.1 0.2
      (by norm_num [Particle.init])] at this
    exact Bool.false_ne_true this

/-- C8 amended: an advance call on a particle that is already inactive is a
complete no-op; on one still active with t ≥ 1.0 it keeps position, time,
trajectory and color but resets the active flag to false. -/
theorem update_frame_on_complete (m : DiffusionModel) (p : Particle) (dt s u1 u2 : ℝ) :
    (p.active = false → p.update m dt s u1 u2 = p) ∧
    (p.active = true → 1 ≤ p.t → p.update m dt s u1 u2 = { p with active := false }) := by
  constructor
  · intro h
    rw [Particle.update_def, if_pos (Or.inl h)]
    cases p
    simp_all
  · intro _ h1
    rw [Particle.update_def, if_pos (Or.inr h1)]

/-- Witness for C8's amended theorem at a concrete inactive particle. -/
theorem update_frame_on_complete_witness :
    ((⟨0.25, 0.5, [(0.25, 0.5)], false, "w"⟩ : Particle).active = false) ∧
      ((⟨0.25, 0.5, [(0.25, 0.5)], false, "w"⟩ : Particle).update defaultModel 0.02 0.5 0.1 0.2 =
        (⟨0.25, 0.5, [(0.25, 0.5)], false, "w"⟩ : Particle)) :=
  ⟨rfl, (update_frame_on_complete defaultModel _ 0.02 0.5 0.1 0.2).1 rfl⟩

/-- Particles reachable in the system: created by the spawner as
`new Particle(x, 0)` and mutated only by `Particle.update` with dt ≥ 0. -/
inductive PReachable (m : DiffusionModel) : Particle → Prop
  | init (x : ℝ) (c : String) : PReachable m (Particle.init x 0 c)
  | step (p : Particle) (dt s u1 u2 : ℝ) (hdt : 0 ≤ dt) (hp : PReachable m p) :
      PReachable m (p.update m dt s u1 u2)

/-- C10: on every reachable particle, inactive implies t ≥ 1.0; hence the
eviction test `isComplete` (t ≥ 1.0 alone) coincides with the condition
"inactive or t ≥ 1.0" on reachable particles. -/
theorem preachable_inactive_complete (m : DiffusionModel) (p : Particle)
    (hp : PReachable m p) :
    (p.active = false → p.isComplete) ∧ ((p.active = false ∨ p.isComplete) ↔ p.isComplete) := by
  have key : p.active = false → 1 ≤ p.t := by
    induction hp with
    | init x c => intro h; simp [Particle.init] at h
    | step q dt s u1 u2 hdt hq ih =>
      intro h
      by_cases hc : q.active = false ∨ 1 ≤ q.t
      · rw [Particle.update_def, if_pos hc]
        rcases hc with hc | hc
        · exact ih hc
        · exact hc
      · rw [Particle.update_def, if_neg hc] at h
        push_neg at hc
        exact absurd h (by simp [hc.1])
  exact ⟨key, ⟨fun h => h.elim key id, Or.inr⟩⟩

/-- Witness for C10 at a concrete reachable inactive particle. -/
theorem preachable_inactive_complete_witness :
    ((((Particle.init 0 0 "w").update defaultModel 1 0 0 0).update defaultModel 1 0 0 0).active =
          false →
        (((Particle.init 0 0 "w").update defaultModel 1 0 0 0).update
            defaultModel 1 0 0 0).isComplete) ∧
      (((((Particle.init 0 0 "w").update defaultModel 1 0 0 0).update defaultModel 1 0 0
              0).active = false ∨
          (((Particle.init 0 0 "w").update defaultModel 1 0 0 0).update
              defaultModel 1 0 0 0).isComplete) ↔
        (((Particle.init 0 0 "w").update defaultModel 1 0 0 0).update
            defaultModel 1 0 0 0).isComplete) :=
  preachable_inactive_complete defaultModel _
    (PReachable.step _ 1 0 0 0 (by norm_num)
      (PReachable.step _ 1 0 0 0 (by norm_num) (PReachable.init 0 "w")))

/-- `ParticleSystem.maxParticles` (particle.js line 57). -/
def maxParticles : ℕ := 1000

/-- `this.particles.findIndex(p => p.isComplete())`, as an optional index. -/
noncomputable def findCompleteIdx : List Particle → Option ℕ
  | [] => none
  | p :: ps => if 1 ≤ p.t then some 0 else (findCompleteIdx ps).map (· + 1)

/-- `ParticleSystem.spawnParticles(count, model)` (particle.js lines 64-79).
Each loop iteration's sampled position and generated color are
externalized as one entry of `draws`; when the population is full an
oldest completed particle is spliced out first, and with none present the
loop breaks. -/
noncomputable def spawnParticles : List Particle → List (ℝ × String) → List Particle
  | ps, [] => ps
  | ps, (x, c) :: rest =>
    if maxParticles ≤ ps.length then
      match findCompleteIdx ps with
      | some i => spawnParticles (ps.eraseIdx i ++ [Particle.init x 0 c]) rest
      | none => ps
    else spawnParticles (ps ++ [Particle.init x 0 c]) rest

/-- `ParticleSystem.update(diffusionModel, dt, stochasticity)` (particle.js
lines 84-88): updates every particle in order; `us` supplies the uniform
draws each particle's update may consume. -/
noncomputable def systemUpdate (m : DiffusionModel) (dt s : ℝ) :
    (ℕ → ℝ × ℝ) → List Particle → List Particle
  | _, [] => []
  | us, p :: ps => p.update m dt s (us 0).1 (us 0).2 :: systemUpdate m dt s (fun n => us (n + 1)) ps

/-- `ParticleSystem.cleanup()` (particle.js line 106). -/
noncomputable def cleanup (ps : List Particle) : List Particle :=
  ps.filter fun p => !(decide (1 ≤ p.t)) || decide (0 < p.trajectory.length)

/-- Population states reachable from the empty constructor state through
`spawnParticles`, `update`, `clear` and `cleanup`. -/
inductive SysReachable (m : DiffusionModel) : List Particle → Prop
  | nil : SysReachable m []
  | spawned (ps : List Particle) (draws : List (ℝ × String)) (hps : SysReachable m ps) :
      SysReachable m (spawnParticles ps draws)
  | advanced (ps : List Particle) (dt s : ℝ) (us : ℕ → ℝ × ℝ) (hps : SysReachable m ps) :
      SysReachable m (systemUpdate m dt s us ps)
  | cleared (ps : List Particle) (hps : SysReachable m ps) : SysReachable m []
  | cleaned (ps : List Particle) (hps : SysReachable m ps) : SysReachable m (cleanup ps)

theorem findCompleteIdx_lt_length (ps : List Particle) (i : ℕ)
    (h : findCompleteIdx ps = some i) : i < ps.length := by
  induction ps generalizing i with
  | nil => simp [findCompleteIdx] at h
  | cons p ps ih =>
    rw [findCompleteIdx] at h
    split_ifs at h with hp
    · cases h
      simp
    · obtain ⟨j, hj, rfl⟩ := Option.map_eq_some'.mp h
      have := ih j hj
      simp only [List.length_cons]
      omega

theorem findCompleteIdx_eq_none (ps : List Particle)
    (h : ∀ p ∈ ps, ¬(1 : ℝ) ≤ p.t) : findCompleteIdx ps = none := by
  induction ps with
  | nil => rfl
  | cons p ps ih =>
    rw [findCompleteIdx, if_neg (h p (by simp)), ih fun q hq => h q (by simp [hq])]
    rfl

/-- When a completed particle is present, `findIndex` locates the first
one: the population splits as `pre ++ q :: suf` with `q` completed,
nothing in `pre` completed, and splicing at the found index removes
exactly `q`. -/
theorem findCompleteIdx_decomp (ps : List Particle)
    (h : ∃ p ∈ ps, (1 : ℝ) ≤ p.t) :
    ∃ pre q suf, ps = pre ++ q :: suf ∧ (1 : ℝ) ≤ q.t ∧
      (∀ r ∈ pre, ¬(1 : ℝ) ≤ r.t) ∧
      findCompleteIdx ps = some pre.length ∧ ps.eraseIdx pre.length = pre ++ suf := by
  induction ps with
  | nil =>
    obtain ⟨p, hp, _⟩ := h
    exact absurd hp (List.not_mem_nil p)
  | cons p ps ih =>
    by_cases hp : (1 : ℝ) ≤ p.t
    · refine ⟨[], p, ps, rfl, hp, by simp, ?_, ?_⟩
      · rw [findCompleteIdx, if_pos hp]
        rfl
      · rfl
    · have h2 : ∃ q ∈ ps, (1 : ℝ) ≤ q.t := by
        obtain ⟨q, hq, hqt⟩ := h
        rcases List.mem_cons.mp hq with rfl | hq2
        · exact absurd hqt hp
        · exact ⟨q, hq2, hqt⟩
      obtain ⟨pre, q, suf, hdec, hq, hpre, hfind, herase⟩ := ih h2
      refine ⟨p :: pre, q, suf, by rw [hdec]; rfl, hq, ?_, ?_, ?_⟩
      · intro r hr
        rcases List.mem_cons.mp hr with rfl | hr2
        · exact hp
        · exact hpre r hr2
      · rw [findCompleteIdx, if_neg hp, hfind]
        rfl
      · simp only [List.length_cons, List.eraseIdx_cons_succ, herase]
        rfl

theorem length_spawnParticles_le (draws : List (ℝ × String)) (ps : List Particle)
    (h : ps.length ≤ maxParticles) : (spawnParticles ps draws).length ≤ maxParticles := by
  induction draws generalizing ps with
  | nil => simpa [spawnParticles] using h
  | cons d rest ih =>
    obtain ⟨x, c⟩ := d
    rw [spawnParticles]
    split_ifs with hfull
    · cases hfi : findCompleteIdx ps with
      | none => exact h
      | some i =>
        apply ih
        have hi := findCompleteIdx_lt_length ps i hfi
        have hlen := List.length_eraseIdx (l := ps) (i := i)
        rw [if_pos hi] at hlen
        simp only [List.length_append, List.length_singleton]
        omega
    · apply ih
      simp only [List.length_append, List.length_singleton]
      omega

theorem length_systemUpdate (m : DiffusionModel) (dt s : ℝ) (us : ℕ → ℝ × ℝ)
    (ps : List Particle) : (systemUpdate m dt s us ps).length = ps.length := by
  induction ps generalizing us with
  | nil => rfl
  | cons p ps ih => simp [systemUpdate, ih]

/-- C6: starting from the empty population, no sequence of spawn, advance,
clear and cleanup calls ever pushes the population size above the fixed
capacity 1000; a spawn call at capacity with a completed particle present
first evicts the first completed particle and then appends the new one
(leaving the size unchanged); and a spawn call on a full population
holding no completed particle adds nothing at all. -/
theorem population_capacity (m : DiffusionModel) :
    (∀ ps, SysReachable m ps → ps.length ≤ maxParticles) ∧
    (∀ (ps : List Particle) (x : ℝ) (c : String) (rest : List (ℝ × String)),
      maxParticles ≤ ps.length → (∃ p ∈ ps, p.isComplete) →
        ∃ pre q suf, ps = pre ++ q :: suf ∧ q.isComplete ∧
          (∀ r ∈ pre, ¬r.isComplete) ∧
          (pre ++ suf ++ [Particle.init x 0 c]).length = ps.length ∧
          spawnParticles ps ((x, c) :: rest) =
            spawnParticles (pre ++ suf ++ [Particle.init x 0 c]) rest) ∧
    (∀ (ps : List Particle) (draws : List (ℝ × String)),
      maxParticles ≤ ps.length → (∀ p ∈ ps, ¬p.isComplete) →
        spawnParticles ps draws = ps) := by
  refine ⟨?_, ?_, ?_⟩
  · intro ps hps
    induction hps with
    | nil => simp
    | spawned ps draws hps ih => exact length_spawnParticles_le draws ps ih
    | advanced ps dt s us hps ih => rw [length_systemUpdate]; exact ih
    | cleared ps hps ih => simp
    | cleaned ps hps ih => exact le_trans (List.length_filter_le _ ps) ih
  · intro ps x c rest hfull hex
    obtain ⟨pre, q, suf, hdec, hq, hpre, hfind, herase⟩ := findCompleteIdx_decomp ps hex
    refine ⟨pre, q, suf, hdec, hq, hpre, ?_, ?_⟩
    · rw [hdec]
      simp only [List.length_append, List.length_cons, List.length_singleton,
        List.length_nil]
      omega
    · rw [spawnParticles, if_pos hfull, hfind]
      dsimp only
      rw [herase]
  · intro ps draws hfull hnone
    cases draws with
    | nil => rfl
    | cons d rest =>
      obtain ⟨x, c⟩ := d
      rw [spawnParticles, if_pos hfull, findCompleteIdx_eq_none ps hnone]

/-- Witness for C6: a freshly spawned two-particle population respects the
capacity bound, and a spawn on a full population of completed particles
evicts one of them before appending the new particle. -/
theorem population_capacity_witness :
    ((spawnParticles [] [(0.1, "a"), (0.2, "b")]).length ≤ maxParticles) ∧
    (∃ pre q suf,
      List.replicate 1000 (Particle.init 0 1 "w") = pre ++ q :: suf ∧ q.isComplete ∧
      (∀ r ∈ pre, ¬r.isComplete) ∧
      (pre ++ suf ++ [Particle.init 0.3 0 "n"]).length =
        (List.replicate 1000 (Particle.init 0 1 "w")).length ∧
      spawnParticles (List.replicate 1000 (Particle.init 0 1 "w")) [(0.3, "n")] =
        spawnParticles (pre ++ suf ++ [Particle.init 0.3 0 "n"]) []) :=
  ⟨(population_capacity defaultModel).1 _
      (SysReachable.spawned [] [(0.1, "a"), (0.2, "b")] SysReachable.nil),
    (population_capacity defaultModel).2.1 (List.replicate 1000 (Particle.init 0 1 "w"))
      0.3 "n" [] (by rw [List.length_replicate]; norm_num [maxParticles])
      ⟨Particle.init 0 1 "w", List.mem_replicate.mpr ⟨by norm_num, rfl⟩, le_refl 1⟩⟩

theorem update_trajectory_le (p : Particle) (m : DiffusionModel) (dt s u1 u2 : ℝ)
    (h : p.trajectory.length ≤ 100) : (p.update m dt s u1 u2).trajectory.length ≤ 100 := by
  rw [Particle.update_def]
  by_cases hc : p.active = false ∨ 1 ≤ p.t
  · rw [if_pos hc]
    exact h
  · rw [if_neg hc]
    simp only
    split_ifs with hlen
    · simp only [List.length_tail, List.length_append, List.length_singleton]
      omega
    · simp only [List.length_append, List.length_singleton] at hlen ⊢
      omega

theorem mem_spawnParticles (draws : List (ℝ × String)) (ps : List Particle) (p : Particle)
    (h : p ∈ spawnParticles ps draws) :
    p ∈ ps ∨ ∃ x c, p = Particle.init x 0 c := by
  induction draws generalizing ps with
  | nil => exact Or.inl h
  | cons d rest ih =>
    obtain ⟨x, c⟩ := d
    rw [spawnParticles] at h
    split_ifs at h with hfull
    · cases hfi : findCompleteIdx ps with
      | none =>
        rw [hfi] at h
        exact Or.inl h
      | some i =>
        rw [hfi] at h
        rcases ih _ h with hmem | hinit
        · rcases List.mem_append.mp hmem with hmem | hmem
          · exact Or.inl ((List.eraseIdx_sublist ps i).mem hmem)
          · exact Or.inr ⟨x, c, List.mem_singleton.mp hmem⟩
        · exact Or.inr hinit
    · rcases ih _ h with hmem | hinit
      · rcases List.mem_append.mp hmem with hmem | hmem
        · exact Or.inl hmem
        · exact Or.inr ⟨x, c, List.mem_singleton.mp hmem⟩
      · exact Or.inr hinit

theorem mem_systemUpdate (m : DiffusionModel) (dt s : ℝ) (us : ℕ → ℝ × ℝ)
    (ps : List Particle) (p : Particle) (h : p ∈ systemUpdate m dt s us ps) :
    ∃ q ∈ ps, ∃ u1 u2, p = q.update m dt s u1 u2 := by
  induction ps generalizing us with
  | nil => simp [systemUpdate] at h
  | cons q ps ih =>
    rw [systemUpdate] at h
    rcases List.mem_cons.mp h with hq | hmem
    · exact ⟨q, by simp, (us 0).1, (us 0).2, hq⟩
    · obtain ⟨r, hr, u1, u2, rfl⟩ := ih _ hmem
      exact ⟨r, by simp [hr], u1, u2, rfl⟩

/-- C7: on every reachable population, every particle's trajectory holds at
most 100 points; and an advance on an active particle whose trajectory is
already at the bound drops the oldest point from the front. -/
theorem trajectory_retention (m : DiffusionModel) :
    (∀ ps, SysReachable m ps → ∀ p ∈ ps, p.trajectory.length ≤ 100) ∧
    (∀ (p : Particle) (dt s u1 u2 : ℝ), p.active = true → p.t < 1 →
      100 ≤ p.trajectory.length →
        (p.update m dt s u1 u2).trajectory =
          (p.trajectory ++
            [(m.evolveParticle p.x p.t dt s u1 u2, min (p.t + dt) 1)]).tail) := by
  constructor
  · intro ps hps
    induction hps with
    | nil => simp
    | spawned ps draws hps ih =>
      intro p hp
      rcases mem_spawnParticles draws ps p hp with hmem | ⟨x, c, rfl⟩
      · exact ih p hmem
      · simp [Particle.init]
    | advanced ps dt s us hps ih =>
      intro p hp
      obtain ⟨q, hq, u1, u2, rfl⟩ := mem_systemUpdate m dt s us ps p hp
      exact update_trajectory_le q m dt s u1 u2 (ih q hq)
    | cleared ps hps ih => simp
    | cleaned ps hps ih =>
      intro p hp
      exact ih p (List.mem_filter.mp hp).1
  · intro p dt s u1 u2 hact ht hlen
    have hcond : ¬(p.active = false ∨ 1 ≤ p.t) := by
      rw [hact]
      simp only [Bool.true_eq_false, false_or, not_le]
      exact ht
    rw [Particle.update_def, if_neg hcond]
    simp only
    rw [if_pos (by simp only [List.length_append, List.length_singleton]; omega)]

/-- Witness for C7 at a freshly spawned single-particle population. -/
theorem trajectory_retention_witness :
    (Particle.init 0 0 "w").trajectory.length ≤ 100 :=
  (trajectory_retention defaultModel).1 (spawnParticles [] [(0, "w")])
    (SysReachable.spawned [] [(0, "w")] SysReachable.nil)
    (Particle.init 0 0 "w") (by simp [spawnParticles, maxParticles])

/-- Spec wording: weight toward mode 1, `exp(−2·|x − mode1|)·(1+0.3·sin(πt))`. -/
noncomputable def specWeight1 (m : DiffusionModel) (x t : ℝ) : ℝ :=
  Real.exp (-2 * |x - m.cleanMode1|) * (1 + 0.3 * Real.sin (Real.pi * t))

/-- Spec wording: weight toward mode 2, `exp(−2·|x − mode2|)·(1+0.3·cos(πt))`. -/
noncomputable def specWeight2 (m : DiffusionModel) (x t : ℝ) : ℝ :=
  Real.exp (-2 * |x - m.cleanMode2|) * (1 + 0.3 * Real.cos (Real.pi * t))

/-- Spec wording: the weight-normalized average of the two mode positions. -/
noncomputable def specTarget (m : DiffusionModel) (x t : ℝ) : ℝ :=
  (specWeight1 m x t * m.cleanMode1 + specWeight2 m x t * m.cleanMode2) /
    (specWeight1 m x t + specWeight2 m x t)

/-- Spec wording: `curvature = sin(2πt)·0.3·(1−t)`. -/
noncomputable def specCurvature (t : ℝ) : ℝ :=
  Real.sin (2 * Real.pi * t) * 0.3 * (1 - t)

/-- Spec wording: `centerPull = −x·0.4·exp(−1.5t)·(1−t)`. -/
noncomputable def specCenterPull (x t : ℝ) : ℝ :=
  -x * 0.4 * Real.exp (-1.5 * t) * (1 - t)

/-- Spec wording: final velocity
`direction·(1 − 0.2t) + curvature·sign(x)·(1−t) + centerPull`. -/
noncomputable def specVelocityField (m : DiffusionModel) (x t : ℝ) : ℝ :=
  (specTarget m x t - x) * (1 - 0.2 * t) + specCurvature t * jsign x * (1 - t) +
    specCenterPull x t

/-- C3: `computeVectorField` agrees everywhere with the spec's analytic
formula, and at x = 0 the curvature term contributes exactly zero because
sign(0) = 0. -/
theorem computeVectorField_eq_spec (m : DiffusionModel) :
    (∀ x t : ℝ, m.computeVectorField x t = specVelocityField m x t) ∧
    (∀ t : ℝ, m.computeVectorField 0 t =
      (specTarget m 0 t - 0) * (1 - 0.2 * t) + specCenterPull 0 t) := by
  have h0 : jsign 0 = 0 := by norm_num [jsign]
  constructor
  · intro x t
    simp only [DiffusionModel.computeVectorField, specVelocityField, specTarget,
      specWeight1, specWeight2, specCurvature, specCenterPull]
    ring_nf
  · intro t
    simp only [DiffusionModel.computeVectorField, specTarget, specWeight1,
      specWeight2, specCenterPull, h0]
    ring_nf

theorem evolveParticle_det_eq (m : DiffusionModel) (x t dt u1 u2 : ℝ) :
    m.evolveParticle x t dt 0 u1 u2 = m.flowMatchingStep x t dt := by
  simp [DiffusionModel.evolveParticle]

/-- The normalized two-mode target with modes -1 and 1 is a convex
combination of -1 and 1, hence of magnitude at most 1. -/
theorem target_abs_le_one (W1 W2 : ℝ) (h1 : 0 < W1) (h2 : 0 < W2) :
    |(W1 * -1 + W2 * 1) / (W1 + W2)| ≤ 1 := by
  have hsum : (0:ℝ) < W1 + W2 := by linarith
  rw [abs_div, abs_of_pos hsum, div_le_one hsum,
    show W1 * -1 + W2 * 1 = W2 - W1 by ring]
  exact abs_le.mpr ⟨by linarith, by linarith⟩

/-- One Euler step of the default vector field with dt = 0.02 maps the
interval |x| ≤ 13/8 into itself, for any t in [0, 1]. The target, the
oscillation, the sign and the exponential factor enter only through the
bounds assumed here. -/
theorem abstract_step_bound (x t T S G E : ℝ)
    (hx : |x| ≤ 13 / 8) (ht0 : 0 ≤ t) (ht1 : t ≤ 1) (hT : |T| ≤ 1)
    (hS : |S| ≤ 1) (hG : |G| ≤ 1) (hE0 : 0 < E) (hE1 : E ≤ 1) :
    |x + ((T - x) * (1.0 - t * 0.2) * 1.0 + S * 0.3 * (1 - t) * G * (1 - t) +
        -x * 0.4 * E * (1 - t)) * 0.02| ≤ 13 / 8 := by
  have h1t0 : (0:ℝ) ≤ 1 - t := by linarith
  have h1t1 : (1:ℝ) - t ≤ 1 := by linarith
  have hts0 : (0:ℝ) ≤ 1.0 - t * 0.2 := by nlinarith
  have hts1 : (1.0:ℝ) - t * 0.2 ≤ 1 := by nlinarith
  have hEt0 : (0:ℝ) ≤ E * (1 - t) := mul_nonneg hE0.le h1t0
  have hEt1 : E * (1 - t) ≤ 1 := by nlinarith
  have key : x + ((T - x) * (1.0 - t * 0.2) * 1.0 + S * 0.3 * (1 - t) * G * (1 - t) +
      -x * 0.4 * E * (1 - t)) * 0.02 =
      x * (1 - (1.0 - t * 0.2) * 0.02 - 0.4 * (E * (1 - t)) * 0.02) +
        (T * (1.0 - t * 0.2) * 0.02 + S * 0.3 * (1 - t) * G * (1 - t) * 0.02) := by
    ring
  rw [key]
  have hA0 : (0:ℝ) ≤ 1 - (1.0 - t * 0.2) * 0.02 - 0.4 * (E * (1 - t)) * 0.02 := by nlinarith
  have hA1 : 1 - (1.0 - t * 0.2) * 0.02 - 0.4 * (E * (1 - t)) * 0.02 ≤ 123 / 125 := by nlinarith
  have hC1 : |T * (1.0 - t * 0.2) * 0.02| ≤ 1 / 50 := by
    rw [abs_mul, abs_mul, abs_of_nonneg hts0, show |(0.02:ℝ)| = 0.02 by norm_num]
    have hb : |T| * (1.0 - t * 0.2) ≤ 1 := mul_le_one₀ hT hts0 hts1
    nlinarith
  have hC2 : |S * 0.3 * (1 - t) * G * (1 - t) * 0.02| ≤ 3 / 500 := by
    have habs : |S * 0.3 * (1 - t) * G * (1 - t) * 0.02| =
        |S| * |G| * (0.3 * ((1 - t) * (1 - t)) * 0.02) := by
      rw [abs_mul, abs_mul, abs_mul, abs_mul, abs_mul, abs_of_nonneg h1t0,
        show |(0.3:ℝ)| = 0.3 by norm_num, show |(0.02:ℝ)| = 0.02 by norm_num]
      ring
    rw [habs]
    have hSG : |S| * |G| ≤ 1 := mul_le_one₀ hS (abs_nonneg G) hG
    have hsq : (1 - t) * (1 - t) ≤ 1 := mul_le_one₀ h1t1 h1t0 h1t1
    nlinarith [abs_nonneg S, abs_nonneg G, mul_nonneg (abs_nonneg S) (abs_nonneg G)]
  calc |x * (1 - (1.0 - t * 0.2) * 0.02 - 0.4 * (E * (1 - t)) * 0.02) +
        (T * (1.0 - t * 0.2) * 0.02 + S * 0.3 * (1 - t) * G * (1 - t) * 0.02)| ≤
      |x * (1 - (1.0 - t * 0.2) * 0.02 - 0.4 * (E * (1 - t)) * 0.02)| +
        |T * (1.0 - t * 0.2) * 0.02 + S * 0.3 * (1 - t) * G * (1 - t) * 0.02| :=
      abs_add _ _
    _ ≤ 13 / 8 * (123 / 125) + (1 / 50 + 3 / 500) := by
        have hxa : |x * (1 - (1.0 - t * 0.2) * 0.02 - 0.4 * (E * (1 - t)) * 0.02)| ≤
            13 / 8 * (123 / 125) := by
          rw [abs_mul, abs_of_nonneg hA0]
          exact mul_le_mul hx hA1 hA0 (by norm_num)
        have hca : |T * (1.0 - t * 0.2) * 0.02 + S * 0.3 * (1 - t) * G * (1 - t) * 0.02| ≤
            1 / 50 + 3 / 500 := (abs_add _ _).trans (add_le_add hC1 hC2)
        linarith
    _ = 13 / 8 := by norm_num

/-- One deterministic step of a model with modes -1 and 1 keeps |x| ≤ 13/8
for t in [0, 1] and dt = 0.02. -/
theorem flowStep_bound (m : DiffusionModel) (x t : ℝ)
    (hm1 : m.cleanMode1 = -1) (hm2 : m.cleanMode2 = 1)
    (hx : |x| ≤ 13 / 8) (ht0 : 0 ≤ t) (ht1 : t ≤ 1) :
    |m.flowMatchingStep x t 0.02| ≤ 13 / 8 := by
  simp only [DiffusionModel.flowMatchingStep, DiffusionModel.computeVectorField, hm1, hm2]
  refine abstract_step_bound x t _ _ _ _ hx ht0 ht1 ?_ ?_ ?_ (Real.exp_pos _) ?_
  · refine target_abs_le_one _ _ ?_ ?_
    · exact mul_pos (Real.exp_pos _) (by nlinarith [Real.neg_one_le_sin (t * Real.pi)])
    · exact mul_pos (Real.exp_pos _) (by nlinarith [Real.neg_one_le_cos (t * Real.pi)])
  · exact abs_le.mpr ⟨Real.neg_one_le_sin _, Real.sin_le_one _⟩
  · unfold jsign
    split_ifs <;> norm_num
  · have h := Real.exp_le_exp.mpr (show -t * 1.5 ≤ 0 by nlinarith)
    simpa using h

/-- The end-to-end deterministic scenario: start at x = 0, t = 0 and
iterate x ← evolve(x, t, 0.02, 0), t ← min(t + 0.02, 1). -/
noncomputable def detTraj (m : DiffusionModel) : ℕ → ℝ × ℝ
  | 0 => (0, 0)
  | n + 1 =>
    (m.evolveParticle (detTraj m n).1 (detTraj m n).2 0.02 0 0 0,
      min ((detTraj m n).2 + 0.02) 1)

theorem detTraj_t (m : DiffusionModel) : ∀ n : ℕ, (detTraj m n).2 = min ((n : ℝ) * 0.02) 1 := by
  intro n
  induction n with
  | zero => simp [detTraj]
  | succ n ih =>
    simp only [detTraj, ih]
    rcases le_or_lt ((n : ℝ) * 0.02) 1 with h | h
    · rw [min_eq_left h]
      congr 1
      push_cast
      ring
    · rw [min_eq_right h.le, min_eq_right (by norm_num : (1:ℝ) ≤ 1 + 0.02),
        min_eq_right (by push_cast; linarith)]

theorem detTraj_x_bound (n : ℕ) : |(detTraj defaultModel n).1| ≤ 13 / 8 := by
  induction n with
  | zero =>
    simp only [detTraj]
    norm_num
  | succ n ih =>
    simp only [detTraj]
    rw [evolveParticle_det_eq]
    refine flowStep_bound defaultModel _ _ (by norm_num [defaultModel])
      (by norm_num [defaultModel]) ih ?_ ?_
    · rw [detTraj_t]
      exact le_min (by positivity) (by norm_num)
    · rw [detTraj_t]
      exact min_le_right _ _

/-- C9: starting from x = 0, t = 0 and iterating x ← evolve(x, t, 0.02, 0),
t ← min(t + 0.02, 1) fifty times, t equals exactly 1.0 and x stays
strictly inside the configured position bounds (-2, 2): the deterministic
flow does not diverge. -/
theorem deterministic_scenario_converges :
    (detTraj defaultModel 50).2 = 1 ∧
    -2 < (detTraj defaultModel 50).1 ∧ (detTraj defaultModel 50).1 < 2 := by
  refine ⟨?_, ?_, ?_⟩
  · rw [detTraj_t]
    norm_num
  · have h := detTraj_x_bound 50
    rw [abs_le] at h
    linarith [h.1]
  · have h := detTraj_x_bound 50
    rw [abs_le] at h
    linarith [h.2]
